import Mathlib

/-!
Verification of the pyrust-bt backtesting engine core
(`rust/engine_rust/src/lib.rs` and `rust/engine_rust/src/database.rs`).

Shallow embedding conventions:
* Rust `f64` values are modelled as `ℚ`; the arithmetic performed by the
  engine (sums, products, divisions, comparisons) is embedded exactly,
  floating-point rounding is out of scope.
* `f64::EPSILON` is the exact rational `2 ^ (-52)`.
* Python values crossing the PyO3 boundary (strategy actions) are modelled
  by the inductive `PyAction`; absent or ill-typed dict fields are `none`.
* Fallible Python calls are modelled with `Except`; a Rust panic
  (out-of-bounds index) is modelled by `Option.none` in the affected
  function and by `RunError.panic` in the engine loops.
* Rust `HashMap` (symbol-keyed ledgers and price maps) is modelled as an
  association list with `alist_get` / `alist_insert`.
-/

namespace PyrustBt

/-- Exact value of `f64::EPSILON`, used by the ledger for flat-position tests. -/
def f64Eps : ℚ := 1 / 2 ^ 52

/-- Pre-extracted bar record (`BarData` in lib.rs): fields absent from the
Python dict are `none` for `datetime` / `symbol` and default to 0 for the
numeric fields (`extract_bars_data`). -/
structure BarData where
  datetime : Option String
  open_ : ℚ
  high : ℚ
  low : ℚ
  close : ℚ
  volume : ℚ
  symbol : Option String
deriving DecidableEq

/-- Order side (`OrderSide` in lib.rs). -/
inductive OrderSide where
  | Buy
  | Sell
deriving DecidableEq

/-- Order type (`OrderType` in lib.rs). -/
inductive OrderType where
  | Market
  | Limit
deriving DecidableEq

/-- An engine order (`Order` in lib.rs; the constant `status` string is
omitted, it is never read). -/
structure Order where
  id : Nat
  side : OrderSide
  otype : OrderType
  size : ℚ
  limit_price : Option ℚ
  symbol : String
deriving DecidableEq

/-- Single-feed ledger state (`PositionState` in lib.rs). -/
structure PositionState where
  position : ℚ
  avg_cost : ℚ
  cash : ℚ
  realized_pnl : ℚ
deriving DecidableEq

/-- `PositionState::new` in lib.rs. -/
def PositionState.new (cash : ℚ) : PositionState :=
  { position := 0, avg_cost := 0, cash := cash, realized_pnl := 0 }

/-- Backtest configuration (`BacktestConfig` in lib.rs; `start`, `end` and
`batch_size` are omitted: the loop reads none of them except `batch_size`,
which only chunks the iteration over `0..n_bars` into consecutive ranges and
does not change the visited index sequence). -/
structure BacktestConfig where
  cash : ℚ
  commission_rate : ℚ
  slippage_bps : ℚ
deriving DecidableEq

/-- `vectorized_sma` in lib.rs. The Rust loop indexes `prices[i]` and
`prices[i - window]` with `i` ranging over `0..prices.len()`; both indices
are always in bounds there, so `List.getD _ _ 0` is an exact model. -/
def vectorized_sma (prices : List ℚ) (window : Nat) : List (Option ℚ) :=
  if prices.length = 0 ∨ window = 0 then
    List.replicate prices.length none
  else
    let step : (ℚ × List (Option ℚ)) → Nat → (ℚ × List (Option ℚ)) := fun st i =>
      let sum := st.1
      let result := st.2
      if i < window then
        (sum + prices.getD i 0, result ++ [none])
      else if i = window then
        let sum := sum + prices.getD i 0
        (sum, result ++ [some (sum / (window : ℚ))])
      else
        let sum := sum - prices.getD (i - window) 0 + prices.getD i 0
        (sum, result ++ [some (sum / (window : ℚ))])
    ((List.range prices.length).foldl step (0, [])).2

/-- ASCII lowercasing of one character; `str::to_lowercase` in Rust agrees
with this on ASCII strings (the only strings the period grammar accepts). -/
def char_to_lower (c : Char) : Char :=
  if 'A' ≤ c ∧ c ≤ 'Z' then Char.ofNat (c.toNat + 32) else c

/-- `str::to_lowercase` (ASCII fragment). -/
def str_to_lower (s : String) : String :=
  ⟨s.data.map char_to_lower⟩

/-- `str::ends_with` modelled on the character list. -/
def str_ends_with (s suffix : String) : Bool :=
  suffix.data.isSuffixOf s.data

/-- Drop the last `n` characters, as the slicing `&s[..s.len() - n]` does for
ASCII strings. -/
def str_drop_right (s : String) (n : Nat) : String :=
  ⟨s.data.take (s.data.length - n)⟩

/-- Rust `<i64 as FromStr>::parse`: optional sign, at least one digit, only
digits, result within the i64 range. -/
def parse_i64 (s : String) : Option Int :=
  let signDigits : Int × List Char :=
    match s.data with
    | '+' :: rest => (1, rest)
    | '-' :: rest => (-1, rest)
    | cs => (1, cs)
  let sign := signDigits.1
  let digits := signDigits.2
  if digits.isEmpty then none
  else if digits.all Char.isDigit then
    let n : Nat := digits.foldl (fun acc c => acc * 10 + (c.toNat - 48)) 0
    let v : Int := sign * n
    if -(2 ^ 63) ≤ v ∧ v ≤ 2 ^ 63 - 1 then some v else none
  else none

/-- `period_to_minutes` in database.rs: the input is lowercased first, then
dispatched on its trailing letters. -/
def period_to_minutes (period : String) : Option Int :=
  let period_lower := str_to_lower period
  if str_ends_with period_lower "m" then
    parse_i64 (str_drop_right period_lower 1)
  else if str_ends_with period_lower "h" then
    (parse_i64 (str_drop_right period_lower 1)).map (fun h => h * 60)
  else if str_ends_with period_lower "d" then
    (parse_i64 (str_drop_right period_lower 1)).map (fun d => d * 1440)
  else if str_ends_with period_lower "w" then
    (parse_i64 (str_drop_right period_lower 1)).map (fun w => w * 10080)
  else if str_ends_with period_lower "mo" ∨ str_ends_with period_lower "M" then
    let num_str :=
      if str_ends_with period_lower "mo" then str_drop_right period_lower 2
      else str_drop_right period_lower 1
    (parse_i64 num_str).map (fun m => m * 43200)
  else if str_ends_with period_lower "y" then
    (parse_i64 (str_drop_right period_lower 1)).map (fun y => y * 525600)
  else
    none

/-- `BacktestEngine::try_match` in lib.rs. -/
def try_match (order : Order) (last_price : ℚ) : Option (ℚ × ℚ) :=
  match order.otype with
  | .Market => some (last_price, order.size)
  | .Limit =>
    let lp := order.limit_price.getD last_price
    match order.side with
    | .Buy => if last_price ≤ lp then some (lp, order.size) else none
    | .Sell => if last_price ≥ lp then some (lp, order.size) else none

/-- `BacktestEngine::update_position` in lib.rs. -/
def update_position (pos : PositionState) (order : Order)
    (exec_price fill_size commission : ℚ) : PositionState :=
  match order.side with
  | .Buy =>
    let cost := exec_price * fill_size + commission
    let new_pos := pos.position + fill_size
    let avg_cost :=
      if |new_pos| > f64Eps then
        if |pos.position| > f64Eps then
          (pos.avg_cost * pos.position + exec_price * fill_size) / new_pos
        else
          exec_price
      else 0
    { pos with avg_cost := avg_cost, position := new_pos, cash := pos.cash - cost }
  | .Sell =>
    let proceeds := exec_price * fill_size - commission
    let realized :=
      if pos.position > 0 then
        pos.realized_pnl + (exec_price - pos.avg_cost) * min fill_size pos.position
      else pos.realized_pnl
    let new_pos := pos.position - fill_size
    let avg_cost := if |new_pos| < f64Eps then 0 else pos.avg_cost
    { pos with
        realized_pnl := realized
        position := new_pos
        avg_cost := avg_cost
        cash := pos.cash + proceeds }

/-- Side tag written into trade and event records. -/
def sideStr : OrderSide → String
  | .Buy => "BUY"
  | .Sell => "SELL"

/-- Slippage sign: +1 for Buy, -1 for Sell. -/
def sideSign : OrderSide → ℚ
  | .Buy => 1
  | .Sell => -1

/-- One trade record `(order_id, side, price, size)` as pushed on fills. -/
structure Trade where
  order_id : Nat
  side : String
  price : ℚ
  size : ℚ
deriving DecidableEq

/-- Fill handling block of the single-feed loop (lib.rs lines 785-809):
match the order, apply slippage and commission, mutate the ledger and emit
the trade record. -/
def fill_order (cfg : BacktestConfig) (pos : PositionState) (order : Order)
    (last_price : ℚ) : PositionState × Option Trade :=
  match try_match order last_price with
  | none => (pos, none)
  | some (fill_price, fill_size) =>
    let slip := cfg.slippage_bps / 10000
    let sign := sideSign order.side
    let exec_price := fill_price * (1 + sign * slip)
    let commission := exec_price * fill_size * cfg.commission_rate
    let pos1 := update_position pos order exec_price fill_size commission
    (pos1, some { order_id := order.id, side := sideStr order.side,
                  price := exec_price, size := fill_size })

/-- Python value returned by a strategy as its action: `None`, a string, a
dict (with the fields `parse_action_fast` reads; a field that is absent or
not of the expected Python type is `none`), or a list of such values. -/
inductive PyAction where
  | pynone
  | pystr (s : String)
  | pydict (action : Option String) (otype : Option String) (size : Option ℚ)
      (price : Option ℚ) (symbol : Option String)
  | pylist (items : List PyAction)

/-- `BacktestEngine::parse_action_fast` in lib.rs. The outer `Option` is the
execution outcome: `none` models the Rust panic raised by the expression
`act.as_bytes()[0]` when the action string is empty; `some (o, seq)` is a
normal return with parsed order `o` (or no order) and the updated order
sequence counter. Testing the first byte against 0x42 is equivalent to
testing the first character against the letter B, because the leading byte
of a multi-byte UTF-8 character is at least 0x80. -/
def parse_action_fast (a : PyAction) (order_seq : Nat) (last_price : ℚ)
    (default_symbol : String) : Option (Option Order × Nat) :=
  match a with
  | .pynone => some (none, order_seq)
  | .pystr act =>
    match act.data with
    | [] => none
    | c :: _ =>
      let side := if c = 'B' then OrderSide.Buy else OrderSide.Sell
      some (some { id := order_seq, side := side, otype := .Market, size := 1,
                   limit_price := none, symbol := default_symbol }, order_seq + 1)
  | .pydict action otypeO sizeO priceO symbolO =>
    let act := action.getD ""
    if act.data.isEmpty then some (none, order_seq)
    else
      let side := if act.data.head? = some 'B' then OrderSide.Buy else OrderSide.Sell
      let otype_str := otypeO.getD "market"
      let otype := if otype_str = "limit" then OrderType.Limit else OrderType.Market
      let size := sizeO.getD 1
      let symbol := symbolO.getD default_symbol
      let limit_price :=
        if otype = OrderType.Limit then
          match priceO with
          | some p => some p
          | none => some last_price
        else none
      some (some { id := order_seq, side := side, otype := otype, size := size,
                   limit_price := limit_price, symbol := symbol }, order_seq + 1)
  | .pylist _ => some (none, order_seq)

/-- Per-bar context snapshot handed to the strategy (`EngineContext`). -/
structure EngineContext where
  position : ℚ
  avg_cost : ℚ
  cash : ℚ
  equity : ℚ
  bar_index : Nat
deriving DecidableEq

/-- Event payloads passed to the `on_order` hook. -/
inductive OrderEvent where
  | submitted (o : Order)
  | filled (order_id : Nat)

/-- Single-feed strategy capability. Each callout may raise a Python
exception, modelled as `Except ε`. A strategy lacking the one-argument
`next` (or any hook) is modelled by a function that returns the error the
Python call would raise. -/
structure Strategy (ε : Type) where
  on_start : EngineContext → Except ε Unit
  next2 : BarData → EngineContext → Except ε PyAction
  next1 : BarData → Except ε PyAction
  on_order : OrderEvent → Except ε Unit
  on_trade : Trade → Except ε Unit
  on_stop : Except ε Unit

/-- Abnormal termination of a run: a Rust panic, or a strategy exception
propagated by the `?` operator. -/
inductive RunError (ε : Type) where
  | panic
  | strategy (e : ε)
deriving DecidableEq

/-- Mutable state threaded through the single-feed loop. -/
structure RunState where
  pos : PositionState
  order_seq : Nat
  equity_curve : List (Option String × ℚ)
  trades : List Trade
deriving DecidableEq

/-- Body of the single-feed loop for one bar (lib.rs lines 742-814). Hook
invocations appear as discarded lets, exactly as the Rust code discards
their `PyResult` with `let _ = ...`. -/
def run_step {ε : Type} (cfg : BacktestConfig) (strat : Strategy ε) (i : Nat)
    (bar : BarData) (st : RunState) : Except (RunError ε) RunState :=
  let last_price := bar.close
  let equity_snapshot := st.pos.cash + st.pos.position * last_price
  let ctx : EngineContext :=
    { position := st.pos.position, avg_cost := st.pos.avg_cost, cash := st.pos.cash,
      equity := equity_snapshot, bar_index := i }
  let actionE : Except (RunError ε) PyAction :=
    match strat.next2 bar ctx with
    | .ok a => .ok a
    | .error _ =>
      match strat.next1 bar with
      | .ok a => .ok a
      | .error e => .error (.strategy e)
  match actionE with
  | .error e => .error e
  | .ok action =>
    let default_symbol := bar.symbol.getD "DEFAULT"
    match parse_action_fast action st.order_seq last_price default_symbol with
    | none => .error .panic
    | some (none, seq) =>
      let equity := st.pos.cash + st.pos.position * last_price
      .ok { st with order_seq := seq,
                    equity_curve := st.equity_curve ++ [(bar.datetime, equity)] }
    | some (some order, seq) =>
      let _submitted := strat.on_order (.submitted order)
      let res := fill_order cfg st.pos order last_price
      let pos1 := res.1
      let trades1 :=
        match res.2 with
        | some tr =>
          let _traded := strat.on_trade tr
          let _filled := strat.on_order (.filled order.id)
          st.trades ++ [tr]
        | none => st.trades
      let equity := pos1.cash + pos1.position * last_price
      .ok { pos := pos1, order_seq := seq,
            equity_curve := st.equity_curve ++ [(bar.datetime, equity)],
            trades := trades1 }

/-- The per-bar loop of `BacktestEngine::run`. The Rust code iterates the
chunks `[0, batch), [batch, 2*batch), ...` of `0..n_bars` in order, which
visits each index exactly once in increasing order; the chunking is
therefore dropped. -/
def run_loop {ε : Type} (cfg : BacktestConfig) (strat : Strategy ε) :
    List BarData → Nat → RunState → Except (RunError ε) RunState
  | [], _, st => .ok st
  | bar :: rest, i, st =>
    match run_step cfg strat i bar st with
    | .error e => .error e
    | .ok st1 => run_loop cfg strat rest (i + 1) st1

/-- The result bundle returned by a run (the dict built by
`BacktestEngine::build_result`; the stats sub-dict is computed separately by
`compute_enhanced_stats`). -/
structure ResultBundle where
  cash : ℚ
  position : ℚ
  avg_cost : ℚ
  equity : ℚ
  realized_pnl : ℚ
  equity_curve : List (Option String × ℚ)
  trades : List Trade
deriving DecidableEq

/-- `BacktestEngine::build_result` in lib.rs (lines 1136-1171): note that
the `equity` field multiplies the final position by the last element of the
equity curve, i.e. by an equity value, not by a price. -/
def build_result (pos : PositionState) (equity_curve : List (Option String × ℚ))
    (trades : List Trade) : ResultBundle :=
  { cash := pos.cash
    position := pos.position
    avg_cost := pos.avg_cost
    equity := pos.cash + pos.position * ((equity_curve.getLast?.map Prod.snd).getD 0)
    realized_pnl := pos.realized_pnl
    equity_curve := equity_curve
    trades := trades }

/-- `BacktestEngine::run` in lib.rs: on_start (result discarded), the bar
loop, on_stop (result discarded), then `build_result`. -/
def run {ε : Type} (cfg : BacktestConfig) (strat : Strategy ε) (bars : List BarData) :
    Except (RunError ε) ResultBundle :=
  let init_ctx : EngineContext :=
    { position := 0, avg_cost := 0, cash := cfg.cash, equity := cfg.cash, bar_index := 0 }
  let _start := strat.on_start init_ctx
  let st0 : RunState :=
    { pos := PositionState.new cfg.cash, order_seq := 1, equity_curve := [], trades := [] }
  match run_loop cfg strat bars 0 st0 with
  | .error e => .error e
  | .ok st =>
    let _stop := strat.on_stop
    .ok (build_result st.pos st.equity_curve st.trades)

/-- State of the one-pass max-drawdown scan in `compute_enhanced_stats`. -/
structure DDState where
  peak : ℚ
  max_dd : ℚ
  dd_duration : Nat
  max_dd_duration : Nat
deriving DecidableEq

/-- One iteration of the drawdown loop in `compute_enhanced_stats`
(lib.rs lines 1215-1232). -/
def dd_step (s : DDState) (eq : ℚ) : DDState :=
  if eq > s.peak then
    { s with peak := eq, dd_duration := 0 }
  else
    let dd_duration := s.dd_duration + 1
    let current_dd := 1 - eq / s.peak
    { peak := s.peak
      max_dd := if current_dd > s.max_dd then current_dd else s.max_dd
      dd_duration := dd_duration
      max_dd_duration :=
        if dd_duration > s.max_dd_duration then dd_duration else s.max_dd_duration }

/-- The drawdown scan started from a given peak. -/
def dd_scan (start_equity : ℚ) (curve : List ℚ) : DDState :=
  curve.foldl dd_step
    { peak := start_equity, max_dd := 0, dd_duration := 0, max_dd_duration := 0 }

/-- Drawdown figures computed by `compute_enhanced_stats` from the equity
values of the curve: the peak is initialised to the first equity value and
the loop then runs over the whole curve, first element included. The
surrounding function returns early on an empty curve, so only nonempty
curves reach this scan. -/
def compute_dd (curve : List ℚ) : DDState :=
  dd_scan curve.headI curve

/-- Lookup in a symbol-keyed map (`HashMap::get`), modelled on an
association list. -/
def alist_get {α : Type} : List (String × α) → String → Option α
  | [], _ => none
  | (k0, v0) :: rest, k => if k0 = k then some v0 else alist_get rest k

/-- Update-or-insert into a symbol-keyed map (the net effect of
`HashMap::entry(k).or_insert(d)` followed by assignment of the final
value). -/
def alist_insert {α : Type} (k : String) (v : α) :
    List (String × α) → List (String × α)
  | [] => [(k, v)]
  | (k0, v0) :: rest =>
    if k0 = k then (k, v) :: rest else (k0, v0) :: alist_insert k v rest

/-- Portfolio-level ledger of the multi-feed loop: global cash, pooled
realized PnL, per-symbol (position, avg_cost) map and the trade log. -/
structure MultiState where
  cash : ℚ
  realized_pnl : ℚ
  positions : List (String × ℚ × ℚ)
  trades : List Trade
deriving DecidableEq

/-- Per-order processing of `_run_multi_impl` (lib.rs lines 1460-1505):
resolve the reference price from `last_prices` (0 if the symbol is absent),
match, apply slippage and commission, mutate the per-symbol ledger entry and
the global cash, and append the trade record. The `on_trade` callback result
is discarded by the source. -/
def process_order_multi (cfg : BacktestConfig) (last_price_map : List (String × ℚ))
    (st : MultiState) (order : Order) : MultiState :=
  let lp := (alist_get last_price_map order.symbol).getD 0
  match try_match order lp with
  | none => st
  | some (fill_price, fill_size) =>
    let slip := cfg.slippage_bps / 10000
    let sign := sideSign order.side
    let exec_price := fill_price * (1 + sign * slip)
    let commission := exec_price * fill_size * cfg.commission_rate
    let sp := (alist_get st.positions order.symbol).getD (0, 0)
    let tr : Trade := { order_id := order.id, side := sideStr order.side,
                        price := exec_price, size := fill_size }
    match order.side with
    | .Buy =>
      let cost := exec_price * fill_size + commission
      let new_pos := sp.1 + fill_size
      let new_ac :=
        if |new_pos| > f64Eps then
          if |sp.1| > f64Eps then (sp.2 * sp.1 + exec_price * fill_size) / new_pos
          else exec_price
        else 0
      { st with positions := alist_insert order.symbol (new_pos, new_ac) st.positions
                cash := st.cash - cost
                trades := st.trades ++ [tr] }
    | .Sell =>
      let proceeds := exec_price * fill_size - commission
      let realized :=
        if sp.1 > 0 then st.realized_pnl + (exec_price - sp.2) * min fill_size sp.1
        else st.realized_pnl
      let new_pos := sp.1 - fill_size
      let new_ac := if |new_pos| < f64Eps then 0 else sp.2
      { st with positions := alist_insert order.symbol (new_pos, new_ac) st.positions
                cash := st.cash + proceeds
                realized_pnl := realized
                trades := st.trades ++ [tr] }

/-- List branch of `BacktestEngine::parse_actions_any`: parse each item,
resolving its reference price from the symbol named in the item (default
symbol otherwise). The outer `Option` models a Rust panic propagating out of
`parse_action_fast`. -/
def parse_actions_list (lpm : List (String × ℚ)) (default_symbol : String) :
    List PyAction → Nat → Option (List Order × Nat)
  | [], seq => some ([], seq)
  | item :: rest, seq =>
    let sym :=
      match item with
      | .pydict _ _ _ _ (some s) => s
      | _ => default_symbol
    let lp := (alist_get lpm sym).getD 0
    match parse_action_fast item seq lp sym with
    | none => none
    | some (o?, seq1) =>
      match parse_actions_list lpm default_symbol rest seq1 with
      | none => none
      | some (os, seq2) =>
        some ((match o? with | some o => o :: os | none => os), seq2)

/-- `BacktestEngine::parse_actions_any` in lib.rs. -/
def parse_actions_any (a : PyAction) (order_seq : Nat) (lpm : List (String × ℚ))
    (default_symbol : String) : Option (List Order × Nat) :=
  match a with
  | .pylist items => parse_actions_list lpm default_symbol items order_seq
  | _ =>
    let lp := (alist_get lpm default_symbol).getD 0
    match parse_action_fast a order_seq lp default_symbol with
    | none => none
    | some (some o, seq) => some ([o], seq)
    | some (none, seq) => some ([], seq)

/-- One input feed of the multi-feed loop: its dict key and its bars. -/
structure Feed where
  fid : String
  bars : List BarData

/-- Per-feed cursor state: current index and last-bar snapshot. -/
structure FeedCursor where
  idx : Nat
  snap : Option BarData

/-- The minimum next datetime over all feeds (step 1 of the tick algorithm,
lib.rs lines 1372-1384). Bars whose datetime is absent are skipped. String
comparison on Lean character lists agrees with the byte-wise Rust string
order because UTF-8 preserves code-point order. -/
def find_min_dt : List (Feed × FeedCursor) → Option String
  | [] => none
  | (f, c) :: rest =>
    let acc := find_min_dt rest
    match f.bars[c.idx]? with
    | some b =>
      match b.datetime with
      | some dt =>
        match acc with
        | none => some dt
        | some cur => if dt < cur then some dt else some cur
      | none => acc
    | none => acc

/-- Step 2 of the tick algorithm (lib.rs lines 1388-1409): every feed whose
current bar matches the tick datetime is marked in the update slice, its
snapshot and the last-price map are refreshed and its cursor advances. -/
def advance_feeds (cur_dt : String) :
    List (Feed × FeedCursor) → List (String × ℚ) →
    List FeedCursor × List (String × ℚ) × List (String × BarData)
  | [], lpm => ([], lpm, [])
  | (f, c) :: rest, lpm =>
    match f.bars[c.idx]? with
    | some b =>
      if b.datetime = some cur_dt then
        let lpm1 :=
          match b.symbol with
          | some sym => alist_insert sym b.close lpm
          | none => lpm
        let res := advance_feeds cur_dt rest lpm1
        ({ idx := c.idx + 1, snap := some b } :: res.1, res.2.1, (f.fid, b) :: res.2.2)
      else
        let res := advance_feeds cur_dt rest lpm
        (c :: res.1, res.2.1, res.2.2)
    | none =>
      let res := advance_feeds cur_dt rest lpm
      (c :: res.1, res.2.1, res.2.2)

/-- Portfolio equity: cash plus, for every symbol present in the last-price
map, position times last price (lib.rs lines 1421-1424 and 1508-1511). -/
def portfolio_equity (cash : ℚ) (positions : List (String × ℚ × ℚ))
    (lpm : List (String × ℚ)) : ℚ :=
  positions.foldl
    (fun acc e =>
      match alist_get lpm e.1 with
      | some lp => acc + e.2.1 * lp
      | none => acc)
    cash

/-- Context dict passed to `next_multi` (and to the fallback `next`). -/
structure MultiCtx where
  positions : List (String × ℚ × ℚ)
  cash : ℚ
  equity : ℚ
  bar_index : Nat
  last_prices : List (String × ℚ)

/-- Multi-feed strategy capability. -/
structure MultiStrategy (ε : Type) where
  on_start : Except ε Unit
  next_multi : List (String × BarData) → MultiCtx → Except ε PyAction
  next2 : BarData → MultiCtx → Except ε PyAction
  on_trade : Trade → Except ε Unit
  on_stop : Except ε Unit

/-- State threaded through the multi-feed loop. -/
structure MultiRunState where
  cursors : List FeedCursor
  ms : MultiState
  lpm : List (String × ℚ)
  equity_curve : List (Option String × ℚ)
  order_seq : Nat
  step : Nat

/-- The joint-timeline loop of `_run_multi_impl` (lib.rs lines 1371-1514),
written with explicit fuel: every iteration of the source loop advances at
least one cursor (the feed attaining the minimum datetime always matches
it), so the source loop terminates and any fuel of at least the total
number of bars reproduces it; the theorems below quantify over all fuel
values. -/
def run_multi_loop {ε : Type} (cfg : BacktestConfig) (strat : MultiStrategy ε)
    (feeds : List Feed) : Nat → MultiRunState → Except (RunError ε) MultiRunState
  | 0, st => .ok st
  | fuel + 1, st =>
    let pairs := feeds.zip st.cursors
    match find_min_dt pairs with
    | none => .ok st
    | some cur_dt =>
      let adv := advance_feeds cur_dt pairs st.lpm
      let cursors1 := adv.1
      let lpm1 := adv.2.1
      let slice := adv.2.2
      let equity := portfolio_equity st.ms.cash st.ms.positions lpm1
      let ctx : MultiCtx :=
        { positions := st.ms.positions, cash := st.ms.cash, equity := equity,
          bar_index := st.step, last_prices := lpm1 }
      let actionE : Except (RunError ε) PyAction :=
        match strat.next_multi slice ctx with
        | .ok a => .ok a
        | .error _ =>
          match cursors1.head? with
          | some c0 =>
            match c0.snap with
            | some b =>
              match strat.next2 b ctx with
              | .ok a => .ok a
              | .error e => .error (.strategy e)
            | none => .ok .pynone
          | none => .ok .pynone
      match actionE with
      | .error e => .error e
      | .ok action =>
        let default_symbol :=
          match cursors1.head? with
          | some c0 =>
            match c0.snap with
            | some b => b.symbol.getD "DEFAULT"
            | none => "DEFAULT"
          | none => "DEFAULT"
        match parse_actions_any action st.order_seq lpm1 default_symbol with
        | none => .error .panic
        | some (orders, seq1) =>
          let ms1 := orders.foldl (process_order_multi cfg lpm1) st.ms
          let equity_step := portfolio_equity ms1.cash ms1.positions lpm1
          run_multi_loop cfg strat feeds fuel
            { cursors := cursors1, ms := ms1, lpm := lpm1,
              equity_curve := st.equity_curve ++ [(some cur_dt, equity_step)],
              order_seq := seq1, step := st.step + 1 }

/-- `_run_multi_impl` top level: on_start (discarded), the tick loop, on_stop
(discarded) and the result bundle, whose `equity` field is the last equity
curve value (or cash when the curve is empty) and whose `position` and
`avg_cost` are hard-coded to 0. -/
def run_multi {ε : Type} (cfg : BacktestConfig) (strat : MultiStrategy ε)
    (feeds : List Feed) (fuel : Nat) : Except (RunError ε) ResultBundle :=
  let _start := strat.on_start
  let init : MultiRunState :=
    { cursors := feeds.map (fun _ => { idx := 0, snap := none }),
      ms := { cash := cfg.cash, realized_pnl := 0, positions := [], trades := [] },
      lpm := [], equity_curve := [], order_seq := 1, step := 0 }
  match run_multi_loop cfg strat feeds fuel init with
  | .error e => .error e
  | .ok st =>
    let _stop := strat.on_stop
    .ok { cash := st.ms.cash
          position := 0
          avg_cost := 0
          equity := (st.equity_curve.getLast?.map Prod.snd).getD st.ms.cash
          realized_pnl := st.ms.realized_pnl
          equity_curve := st.equity_curve
          trades := st.ms.trades }

/-- A configuration with zero commission and zero slippage, as used by the
spec scenarios S1/S3/S4. -/
def cfg0 : BacktestConfig := { cash := 10000, commission_rate := 0, slippage_bps := 0 }

/-- A single bar with close 100. -/
def bar100 : BarData :=
  { datetime := some "2020-01-01", open_ := 100, high := 100, low := 100, close := 100,
    volume := 0, symbol := none }

/-- Strategy that answers the action string BUY on every bar; every optional
hook raises (a distinct exception value), exercising hook suppression. -/
def buyOnceStrategy : Strategy Nat :=
  { on_start := fun _ => .error 7
    next2 := fun _ _ => .ok (.pystr "BUY")
    next1 := fun _ => .ok .pynone
    on_order := fun _ => .error 8
    on_trade := fun _ => .error 9
    on_stop := .error 10 }

/-- Strategy whose two-argument next raises while the one-argument fallback
succeeds with no action. -/
def failNext2Strategy : Strategy Nat :=
  { on_start := fun _ => .ok ()
    next2 := fun _ _ => .error 1
    next1 := fun _ => .ok .pynone
    on_order := fun _ => .ok ()
    on_trade := fun _ => .ok ()
    on_stop := .ok () }

/-- Strategy on which both next signatures raise, with distinct exception
values so the propagated one is observable. -/
def bothFailStrategy : Strategy Nat :=
  { on_start := fun _ => .ok ()
    next2 := fun _ _ => .error 1
    next1 := fun _ => .error 2
    on_order := fun _ => .ok ()
    on_trade := fun _ => .ok ()
    on_stop := .ok () }

/-- Multi-feed strategy on which next_multi and the fallback next both
raise, with distinct exception values. -/
def bothFailMultiStrategy : MultiStrategy Nat :=
  { on_start := .ok ()
    next_multi := fun _ _ => .error 1
    next2 := fun _ _ => .error 2
    on_trade := fun _ => .ok ()
    on_stop := .ok () }

/-- Empty multi-feed ledger over 10000 cash. -/
def mst0 : MultiState := { cash := 10000, realized_pnl := 0, positions := [], trades := [] }

/-- Buy limit order at 95 on a symbol that never appears in any feed. -/
def buyLimitX : Order :=
  { id := 1, side := .Buy, otype := .Limit, size := 1, limit_price := some 95, symbol := "X" }

/-- Sell limit order at 95 on a symbol that never appears in any feed. -/
def sellLimitX : Order :=
  { id := 1, side := .Sell, otype := .Limit, size := 1, limit_price := some 95, symbol := "X" }

/-- Market buy order of size 1. -/
def mktBuy1 : Order :=
  { id := 1, side := .Buy, otype := .Market, size := 1, limit_price := none, symbol := "DEFAULT" }

/-- Market sell order of size 1. -/
def mktSell1 : Order :=
  { id := 2, side := .Sell, otype := .Market, size := 1, limit_price := none, symbol := "X" }

/-- A one-unit long ledger entry bought at 50, with empty cash and pnl. -/
def posLong1 : PositionState :=
  { position := 1, avg_cost := 50, cash := 0, realized_pnl := 0 }

/-- Multi-feed ledger holding one unit of X at cost 50. -/
def mstX : MultiState :=
  { cash := 10000, realized_pnl := 0, positions := [("X", (1, 50))], trades := [] }

/-- Running peaks of an equity curve: element i is the maximum of the
initial peak and of the curve values up to and including index i. -/
def running_peaks (p : ℚ) : List ℚ → List ℚ
  | [] => []
  | e :: rest => max p e :: running_peaks (max p e) rest

end PyrustBt

namespace PyrustBt

/-- C1. The claim (and the docstring of `vectorized_sma` itself) says
SMA([1,2,3,4,5], 3) = [none, none, 2.0, 3.0, 4.0]: none at indices 0..W-2
and the mean of the previous W prices from index W-1 on. The code instead
emits none at indices 0..W-1 and, at index W, the sum of the first W+1
prices divided by W: the boundary tests use `i < window` / `i == window`
where the documented behaviour needs `i < window - 1` / `i == window - 1`. -/
theorem sma_first_window_off_by_one :
    vectorized_sma [1, 2, 3, 4, 5] 3 = [none, none, none, some (10 / 3), some (13 / 3)] ∧
    vectorized_sma [1, 2, 3, 4, 5] 3 ≠ [none, none, some 2, some 3, some 4] := by
  constructor <;>
    norm_num [vectorized_sma, List.range_succ, List.foldl_append, List.getD]

/-- C2. The claim says the `equity` field of the result bundle equals final cash
plus final position times the close of the last bar, i.e. the last equity
curve entry. On a one-bar run that buys 1 unit at close 100 from 10000 cash
(zero costs), the curve ends at 10000 but `build_result` multiplies the
position by that last curve value instead of by the close, returning
9900 + 1 * 10000 = 19900. -/
theorem equity_field_uses_last_equity :
    ((run cfg0 buyOnceStrategy [bar100]).toOption.map
      (fun r => (r.cash, r.position, r.equity, r.equity_curve.map Prod.snd)))
      = some (9900, 1, 19900, [10000]) ∧
    (19900 : ℚ) ≠ 9900 + 1 * 100 := by
  constructor
  · norm_num [run, run_loop, run_step, parse_action_fast, fill_order, try_match,
      update_position, build_result, PositionState.new, cfg0, bar100, buyOnceStrategy,
      sideStr, sideSign, f64Eps, Except.toOption]
  · norm_num

/-- C3. The claim (and the comments inside `period_to_minutes` itself) says
a bare trailing uppercase M means months, k * 43200 minutes. The function
lowercases its input before dispatching, so "1M" becomes "1m" and hits the
minutes branch; the uppercase-M months test is dead code. All other
units behave as claimed. -/
theorem period_uppercase_M_parses_as_minutes :
    period_to_minutes "1M" = some 1 ∧
    period_to_minutes "3M" = some 3 ∧
    period_to_minutes "1M" ≠ some 43200 ∧
    period_to_minutes "1mo" = some 43200 ∧
    period_to_minutes "2MO" = some 86400 ∧
    period_to_minutes "1m" = some 1 ∧
    period_to_minutes "15m" = some 15 ∧
    period_to_minutes "1h" = some 60 ∧
    period_to_minutes "1D" = some 1440 ∧
    period_to_minutes "1w" = some 10080 ∧
    period_to_minutes "1y" = some 525600 := by
  decide

/-- C4 counterexample. The claim says a limit order (Buy or Sell) on a
symbol absent from last_prices resolves its reference price to 0 and does
not fill. A Buy limit at 95 on the unknown symbol X satisfies 0 ≤ 95, so it
fills at 95: a trade is recorded, cash drops by 95 and a position appears. -/
theorem unknown_symbol_buy_limit_fills :
    (process_order_multi cfg0 [] mst0 buyLimitX).trades =
      [{ order_id := 1, side := "BUY", price := 95, size := 1 }] ∧
    (process_order_multi cfg0 [] mst0 buyLimitX).cash = 9905 ∧
    alist_get (process_order_multi cfg0 [] mst0 buyLimitX).positions "X" = some (1, 95) := by
  refine ⟨?_, ?_, ?_⟩ <;>
    norm_num [process_order_multi, try_match, alist_get, alist_insert, mst0, cfg0,
      buyLimitX, sideStr, sideSign, f64Eps]

/-- C6 counterexample. The claim says max_dd_duration is 0 on a constant
equity curve. The loop increments dd_duration whenever equity does not
strictly exceed the running peak — which holds at every tick of a constant
curve, the first included — so a flat curve of length 2 yields 2. -/
theorem flat_curve_dd_duration_not_zero :
    (compute_dd [100, 100]).max_dd_duration = 2 ∧
    (compute_dd [100, 100]).max_dd_duration ≠ 0 := by
  decide

/-- C10 counterexample. The claim says parse_action_fast returns normally on
every string. On the empty string the fast string path evaluates
`act.as_bytes()[0]` without a bounds check, an out-of-bounds panic
(modelled by the outer `none`); the dict path guards with `is_empty` but
the string path does not. -/
theorem empty_action_string_panics :
    parse_action_fast (PyAction.pystr "") 1 100 "DEFAULT" = none := by
  decide

/-- Lookup after update-or-insert: the inserted key reads back the new
value, every other key is unchanged. -/
theorem alist_get_insert {α : Type} (k : String) (v : α) (m : List (String × α))
    (sym : String) :
    alist_get (alist_insert k v m) sym = if sym = k then some v else alist_get m sym := by
  induction m with
  | nil =>
    simp only [alist_insert, alist_get]
    by_cases h : sym = k
    · rw [if_pos h.symm, if_pos h]
    · rw [if_neg (fun hh => h hh.symm), if_neg h]
  | cons hd tail ih =>
    obtain ⟨k0, v0⟩ := hd
    simp only [alist_insert]
    by_cases hk : k0 = k
    · subst hk
      simp only [alist_get]
      by_cases hs : sym = k0
      · rw [if_pos hs.symm, if_pos hs]
      · rw [if_neg (fun hh => hs hh.symm), if_neg hs, if_neg (fun hh => hs hh.symm)]
    · rw [if_neg hk]
      simp only [alist_get, ih]
      by_cases hs0 : k0 = sym
      · have hsk : ¬ sym = k := fun hh => hk (hs0.symm ▸ hh)
        rw [if_pos hs0, if_neg hsk, if_pos hs0]
      · by_cases hsk : sym = k
        · rw [if_neg hs0, if_pos hsk, if_pos hsk]
        · rw [if_neg hs0, if_neg hsk, if_neg hsk, if_neg hs0]

/-- C4 amended. With a symbol absent from last_prices the reference price
resolves to 0; a Sell limit order with positive limit price then fails the
0 ≥ limit test and does not fill (ledger, cash and trade log unchanged),
but a Buy limit order passes the 0 ≤ limit test and fills at its limit
price, recording a trade. -/
theorem unknown_symbol_limit_orders (cfg : BacktestConfig) (lpm : List (String × ℚ))
    (st : MultiState) (order : Order) (L : ℚ)
    (hmap : alist_get lpm order.symbol = none)
    (hlim : order.otype = .Limit) (hL : order.limit_price = some L) :
    (order.side = .Sell → 0 < L → process_order_multi cfg lpm st order = st) ∧
    (order.side = .Buy → 0 ≤ L →
      (process_order_multi cfg lpm st order).trades
        = st.trades ++ [{ order_id := order.id, side := "BUY",
                          price := L * (1 + cfg.slippage_bps / 10000), size := order.size }]) := by
  constructor
  · intro hside hL0
    have htm : try_match order 0 = none := by
      simp only [try_match, hlim, hside, hL, Option.getD_some, ge_iff_le]
      rw [if_neg (not_le.mpr hL0)]
    simp [process_order_multi, hmap, htm]
  · intro hside hL0
    have htm : try_match order 0 = some (L, order.size) := by
      simp only [try_match, hlim, hside, hL, Option.getD_some]
      rw [if_pos hL0]
    simp [process_order_multi, hmap, htm, hside, sideStr, sideSign]

theorem unknown_symbol_limit_orders_witness :
    process_order_multi cfg0 [] mst0 sellLimitX = mst0 ∧
    (process_order_multi cfg0 [] mst0 buyLimitX).trades
      = mst0.trades ++ [{ order_id := buyLimitX.id, side := "BUY",
                          price := 95 * (1 + cfg0.slippage_bps / 10000),
                          size := buyLimitX.size }] :=
  ⟨(unknown_symbol_limit_orders cfg0 [] mst0 sellLimitX 95 rfl rfl rfl).1 rfl (by norm_num),
   (unknown_symbol_limit_orders cfg0 [] mst0 buyLimitX 95 rfl rfl rfl).2 rfl (by norm_num)⟩

/-- C7. The matcher fills a Market order at the close P with the full order
size; a Buy Limit fills at the limit price exactly when P ≤ limit, a Sell
Limit exactly when P ≥ limit; and every fill is executed at
fill_price * (1 + sign * slippage_bps/10000) (sign +1 for Buy, -1 for Sell)
with commission exec_price * fill_size * commission_rate, the ledger being
mutated with exactly these values. -/
theorem order_matching_and_costs (cfg : BacktestConfig) (pos : PositionState)
    (order : Order) (P L : ℚ) :
    (order.otype = .Market → try_match order P = some (P, order.size)) ∧
    (order.otype = .Limit → order.limit_price = some L → order.side = .Buy →
      try_match order P = if P ≤ L then some (L, order.size) else none) ∧
    (order.otype = .Limit → order.limit_price = some L → order.side = .Sell →
      try_match order P = if L ≤ P then some (L, order.size) else none) ∧
    (∀ fp fs, try_match order P = some (fp, fs) →
      fill_order cfg pos order P =
        (update_position pos order (fp * (1 + sideSign order.side * (cfg.slippage_bps / 10000)))
            fs (fp * (1 + sideSign order.side * (cfg.slippage_bps / 10000)) * fs * cfg.commission_rate),
         some { order_id := order.id, side := sideStr order.side,
                price := fp * (1 + sideSign order.side * (cfg.slippage_bps / 10000)), size := fs })) := by
  refine ⟨?_, ?_, ?_, ?_⟩
  · intro h
    simp [try_match, h]
  · intro h hl hs
    simp [try_match, h, hl, hs]
  · intro h hl hs
    simp [try_match, h, hl, hs, ge_iff_le]
  · intro fp fs hm
    simp [fill_order, hm]

theorem order_matching_and_costs_witness :
    try_match mktBuy1 100 = some (100, 1) ∧
    fill_order cfg0 (PositionState.new 10000) mktBuy1 100 =
      (update_position (PositionState.new 10000) mktBuy1
          (100 * (1 + sideSign mktBuy1.side * (cfg0.slippage_bps / 10000))) 1
          (100 * (1 + sideSign mktBuy1.side * (cfg0.slippage_bps / 10000)) * 1 *
            cfg0.commission_rate),
       some { order_id := mktBuy1.id, side := sideStr mktBuy1.side,
              price := 100 * (1 + sideSign mktBuy1.side * (cfg0.slippage_bps / 10000)),
              size := 1 }) :=
  ⟨(order_matching_and_costs cfg0 (PositionState.new 10000) mktBuy1 100 0).1 rfl,
   (order_matching_and_costs cfg0 (PositionState.new 10000) mktBuy1 100 0).2.2.2 100 1
     ((order_matching_and_costs cfg0 (PositionState.new 10000) mktBuy1 100 0).1 rfl)⟩

/-- C8. With zero commission and zero slippage, a filled Buy of size 1 at
price p followed by a filled Sell of size 1 at price q leaves
realized_pnl = q - p, position = 0 and cash = initial cash + (q - p). -/
theorem round_trip_realized_pnl (c p q : ℚ) :
    let cfg : BacktestConfig := { cash := c, commission_rate := 0, slippage_bps := 0 }
    let pos2 := (fill_order cfg (fill_order cfg (PositionState.new c) mktBuy1 p).1 mktSell1 q).1
    pos2.realized_pnl = q - p ∧ pos2.position = 0 ∧ pos2.cash = c + (q - p) := by
  refine ⟨?_, ?_, ?_⟩ <;>
    norm_num [fill_order, try_match, update_position, PositionState.new, mktBuy1, mktSell1,
      sideSign, f64Eps, min_self] <;> ring

/-- C9. Whenever an applied fill leaves a position of magnitude below
f64::EPSILON its avg_cost is 0: the single-feed `update_position`
re-establishes this unconditionally on both sides, and the per-symbol
multi-feed mutation preserves it across the whole ledger map. -/
theorem flat_position_zero_avg_cost :
    (∀ (pos : PositionState) (order : Order) (ep fs comm : ℚ),
      |(update_position pos order ep fs comm).position| < f64Eps →
      (update_position pos order ep fs comm).avg_cost = 0) ∧
    (∀ (cfg : BacktestConfig) (lpm : List (String × ℚ)) (st : MultiState) (order : Order),
      (∀ sym p ac, alist_get st.positions sym = some (p, ac) → |p| < f64Eps → ac = 0) →
      (∀ sym p ac, alist_get (process_order_multi cfg lpm st order).positions sym = some (p, ac) →
        |p| < f64Eps → ac = 0)) := by
  constructor
  · intro pos order ep fs comm hlt
    cases hside : order.side <;> simp only [update_position, hside] at hlt ⊢
    · rw [if_neg (lt_asymm hlt)]
    · rw [if_pos hlt]
  · intro cfg lpm st order hinv sym p ac hget hlt
    rcases htm : try_match order ((alist_get lpm order.symbol).getD 0) with _ | ⟨fp, fs⟩
    · simp only [process_order_multi, htm] at hget
      exact hinv sym p ac hget hlt
    · cases hside : order.side
      · simp only [process_order_multi, htm, hside, alist_get_insert] at hget
        by_cases hs : sym = order.symbol
        · rw [if_pos hs] at hget
          injection hget with h2
          injection h2 with hp hac
          subst hp
          subst hac
          rw [if_neg (lt_asymm hlt)]
        · rw [if_neg hs] at hget
          exact hinv sym p ac hget hlt
      · simp only [process_order_multi, htm, hside, alist_get_insert] at hget
        by_cases hs : sym = order.symbol
        · rw [if_pos hs] at hget
          injection hget with h2
          injection h2 with hp hac
          subst hp
          subst hac
          rw [if_pos hlt]
        · rw [if_neg hs] at hget
          exact hinv sym p ac hget hlt

theorem flat_position_zero_avg_cost_witness :
    (update_position posLong1 mktSell1 100 1 0).avg_cost = 0 ∧ (0 : ℚ) = 0 :=
  ⟨flat_position_zero_avg_cost.1 posLong1 mktSell1 100 1 0
      (by norm_num [update_position, posLong1, mktSell1, f64Eps]),
   flat_position_zero_avg_cost.2 cfg0 [("X", 100)] mstX mktSell1
      (fun sym p ac h hp => by
        simp only [mstX, alist_get] at h
        split_ifs at h
        injection h with h2
        injection h2 with hp1 hac
        subst hp1
        exact absurd hp (by norm_num [f64Eps]))
      "X" 0 0
      (by norm_num [process_order_multi, try_match, mktSell1, mstX, cfg0, alist_get,
            alist_insert, sideStr, sideSign, f64Eps])
      (by norm_num [f64Eps])⟩

/-- C10 amended. Order-action parsing is total on None, every non-empty
string and every dict (and on lists, where each entry is parsed the same
way): for such actions parse_action_fast returns normally. The empty string
is the one exception: the string fast path indexes byte 0 without a bounds
check and panics, as the counterexample shows. -/
theorem parse_action_total_amended (a : PyAction) (seq : Nat) (lp : ℚ) (sym : String)
    (h : ∀ s, a = PyAction.pystr s → s ≠ "") :
    (parse_action_fast a seq lp sym).isSome = true := by
  cases a with
  | pynone => rfl
  | pystr s =>
    obtain ⟨cs⟩ := s
    cases cs with
    | nil => exact absurd rfl (h ⟨[]⟩ rfl)
    | cons c cs2 => rfl
  | pydict act oty szo po syo =>
    simp only [parse_action_fast]
    split_ifs <;> rfl
  | pylist l => rfl

theorem parse_action_total_amended_witness :
    (parse_action_fast (PyAction.pystr "BUY") 1 100 "DEFAULT").isSome = true :=
  parse_action_total_amended (PyAction.pystr "BUY") 1 100 "DEFAULT"
    (fun s hs => by
      injection hs with h2
      rw [← h2]
      decide)

/-- C5 counterexample. The claim says an exception raised by the primary
next path aborts the run. Here next(bar, ctx) raises on every bar, yet the
engine swallows that exception, retries the one-argument next(bar) — which
succeeds — and the run completes normally. -/
theorem next_ctx_exception_swallowed :
    (run cfg0 failNext2Strategy [bar100]).toOption.isSome = true := by
  rfl

theorem run_step_strategy_only {ε : Type} (cfg : BacktestConfig) (s s2 : Strategy ε)
    (h2 : s.next2 = s2.next2) (h1 : s.next1 = s2.next1) (i : Nat) (bar : BarData)
    (st : RunState) :
    run_step cfg s i bar st = run_step cfg s2 i bar st := by
  simp only [run_step, h2, h1]

theorem run_loop_strategy_only {ε : Type} (cfg : BacktestConfig) (s s2 : Strategy ε)
    (h2 : s.next2 = s2.next2) (h1 : s.next1 = s2.next1) :
    ∀ (bars : List BarData) (i : Nat) (st : RunState),
      run_loop cfg s bars i st = run_loop cfg s2 bars i st := by
  intro bars
  induction bars with
  | nil => intro i st; rfl
  | cons b rest ih =>
    intro i st
    simp only [run_loop, run_step_strategy_only cfg s s2 h2 h1 i b st]
    cases run_step cfg s2 i b st with
    | error e => rfl
    | ok st1 => exact ih (i + 1) st1

theorem run_multi_loop_strategy_only {ε : Type} (cfg : BacktestConfig)
    (s s2 : MultiStrategy ε) (feeds : List Feed)
    (hm : s.next_multi = s2.next_multi) (h2 : s.next2 = s2.next2) :
    ∀ (fuel : Nat) (st : MultiRunState),
      run_multi_loop cfg s feeds fuel st = run_multi_loop cfg s2 feeds fuel st := by
  intro fuel
  induction fuel with
  | zero => intro st; rfl
  | succ fuel ih =>
    intro st
    simp only [run_multi_loop, hm, h2, ih]

/-- C5 amended. Exceptions raised by the optional hooks (on_start, on_order,
on_trade, on_stop) are suppressed and never affect the outcome of a run, in
both run modes: the result depends only on the next capabilities. An
exception from the primary next(bar, ctx) (or next_multi) call does not by
itself abort the run: the engine retries the fallback signature, and the
run aborts exactly when the fallback call raises too, the propagated
exception being the one raised by the fallback call (the original is
discarded). -/
theorem hook_suppression_and_next_fallback :
    (∀ (ε : Type) (cfg : BacktestConfig) (s s2 : Strategy ε) (bars : List BarData),
      s.next2 = s2.next2 → s.next1 = s2.next1 → run cfg s bars = run cfg s2 bars) ∧
    (∀ (ε : Type) (cfg : BacktestConfig) (s : Strategy ε) (bar : BarData)
      (rest : List BarData) (a e : ε),
      s.next2 bar { position := 0, avg_cost := 0, cash := cfg.cash, equity := cfg.cash,
                    bar_index := 0 } = .error a →
      s.next1 bar = .error e →
      run cfg s (bar :: rest) = .error (.strategy e)) ∧
    (∀ (ε : Type) (cfg : BacktestConfig) (s s2 : MultiStrategy ε) (feeds : List Feed)
      (fuel : Nat),
      s.next_multi = s2.next_multi → s.next2 = s2.next2 →
      run_multi cfg s feeds fuel = run_multi cfg s2 feeds fuel) ∧
    (∀ (ε : Type) (cfg : BacktestConfig) (s : MultiStrategy ε) (fid : String) (b : BarData)
      (rest : List BarData) (dt : String) (fuel : Nat) (e : ε)
      (em : List (String × BarData) → MultiCtx → ε),
      b.datetime = some dt →
      (∀ sl c, s.next_multi sl c = .error (em sl c)) →
      (∀ b2 c, s.next2 b2 c = .error e) →
      run_multi cfg s [{ fid := fid, bars := b :: rest }] (fuel + 1)
        = .error (.strategy e)) := by
  refine ⟨?_, ?_, ?_, ?_⟩
  · intro ε cfg s s2 bars h2 h1
    simp only [run, run_loop_strategy_only cfg s s2 h2 h1]
  · intro ε cfg s bar rest a e hn2 hn1
    simp only [run, run_loop, run_step, PositionState.new, zero_mul, add_zero, hn2, hn1]
  · intro ε cfg s s2 feeds fuel hm h2
    simp only [run_multi, run_multi_loop_strategy_only cfg s s2 feeds hm h2]
  · intro ε cfg s fid b rest dt fuel e em hdt hm hn2
    simp only [run_multi, run_multi_loop, List.map, List.zip_cons_cons, List.zip_nil_right,
      find_min_dt, advance_feeds, List.getElem?_cons_zero, hdt, hm, hn2, if_true,
      List.head?_cons]

theorem hook_suppression_and_next_fallback_witness :
    run cfg0 bothFailStrategy [bar100] = .error (.strategy 2) ∧
    run_multi cfg0 bothFailMultiStrategy [{ fid := "A", bars := [bar100] }] 4
      = .error (.strategy 2) :=
  ⟨hook_suppression_and_next_fallback.2.1 Nat cfg0 bothFailStrategy bar100 [] 1 2 rfl rfl,
   hook_suppression_and_next_fallback.2.2.2 Nat cfg0 bothFailMultiStrategy "A" bar100 []
     "2020-01-01" 3 2 (fun _ _ => 1) rfl (fun _ _ => rfl) (fun _ _ => rfl)⟩

theorem dd_step_flat (c : ℚ) (hc : c ≠ 0) (d md : Nat) :
    dd_step { peak := c, max_dd := 0, dd_duration := d, max_dd_duration := md } c
      = { peak := c, max_dd := 0, dd_duration := d + 1,
          max_dd_duration := if d + 1 > md then d + 1 else md } := by
  simp only [dd_step]
  rw [if_neg (lt_irrefl c), div_self hc]
  norm_num

theorem dd_scan_flat_aux (c : ℚ) (hc : c ≠ 0) :
    ∀ (M d : Nat),
      (List.replicate M c).foldl dd_step
          { peak := c, max_dd := 0, dd_duration := d, max_dd_duration := d }
        = { peak := c, max_dd := 0, dd_duration := d + M, max_dd_duration := d + M } := by
  intro M
  induction M with
  | zero => intro d; simp
  | succ M ih =>
    intro d
    rw [List.replicate_succ, List.foldl_cons, dd_step_flat c hc d d,
      if_pos (Nat.lt_succ_self d), ih (d + 1)]
    have h3 : d + 1 + M = d + (M + 1) := by omega
    rw [h3]

theorem dd_scan_max_dd_aux :
    ∀ (l : List ℚ) (p m : ℚ) (d md : Nat), 0 < p → 0 ≤ m → (∀ e ∈ l, 0 < e) →
      (l.foldl dd_step
          { peak := p, max_dd := m, dd_duration := d, max_dd_duration := md }).max_dd
        = (List.zipWith (fun e q => 1 - e / q) l (running_peaks p l)).foldl max m := by
  intro l
  induction l with
  | nil => intro p m d md hp hm hl; rfl
  | cons e rest ih =>
    intro p m d md hp hm hl
    have he : 0 < e := hl e (List.mem_cons_self e rest)
    have hrest : ∀ x ∈ rest, 0 < x := fun x hx => hl x (List.mem_cons_of_mem e hx)
    simp only [running_peaks, List.zipWith_cons_cons, List.foldl_cons]
    by_cases hgt : e > p
    · have hstep : dd_step { peak := p, max_dd := m, dd_duration := d, max_dd_duration := md } e
          = { peak := e, max_dd := m, dd_duration := 0, max_dd_duration := md } := by
        simp only [dd_step]
        rw [if_pos hgt]
      rw [hstep, max_eq_right hgt.le, div_self he.ne', sub_self, max_eq_left hm]
      exact ih e m 0 md he hm hrest
    · have hle : e ≤ p := not_lt.mp hgt
      have hstep : dd_step { peak := p, max_dd := m, dd_duration := d, max_dd_duration := md } e
          = { peak := p, max_dd := max m (1 - e / p), dd_duration := d + 1,
              max_dd_duration := if d + 1 > md then d + 1 else md } := by
        simp only [dd_step]
        rw [if_neg (not_lt.mpr hle)]
        rcases le_or_lt (1 - e / p) m with h | h
        · rw [if_neg (not_lt.mpr h), max_eq_left h]
        · rw [if_pos h, max_eq_right h.le]
      rw [hstep, max_eq_left hle]
      exact ih p (max m (1 - e / p)) (d + 1) _ hp (hm.trans (le_max_left m _)) hrest

/-- C6 amended. The one-pass scan computes max drawdown as the maximum over
all ticks of 1 - equity/running_peak (running peak taken over the curve up
to and including the tick; stated for curves with positive equities). But
dd_duration is incremented on every tick where equity does not strictly
exceed the running peak — ties included, and the first tick included, since
the peak starts at the first equity value — and is reset to 0 only on a
strict new peak. On a constant curve of length M the scan therefore ends
with max_dd_duration = M (not 0) while max_dd stays 0. -/
theorem drawdown_scan_amended :
    (∀ (e : ℚ) (rest : List ℚ), 0 < e → (∀ x ∈ rest, 0 < x) →
      (compute_dd (e :: rest)).max_dd
        = (List.zipWith (fun x q => 1 - x / q) (e :: rest)
            (running_peaks e (e :: rest))).foldl max 0) ∧
    (∀ (c : ℚ) (M : Nat), 0 < c →
      compute_dd (List.replicate (M + 1) c)
        = { peak := c, max_dd := 0, dd_duration := M + 1, max_dd_duration := M + 1 }) := by
  constructor
  · intro e rest he hrest
    have hl : ∀ x ∈ e :: rest, 0 < x := by
      intro x hx
      rcases List.mem_cons.mp hx with h | h
      · exact h ▸ he
      · exact hrest x h
    exact dd_scan_max_dd_aux (e :: rest) e 0 0 0 he le_rfl hl
  · intro c M hc
    have hh : (List.replicate (M + 1) c).headI = c := by
      rw [List.replicate_succ]
      rfl
    rw [compute_dd, dd_scan, hh, dd_scan_flat_aux c hc.ne' (M + 1) 0]
    norm_num

theorem drawdown_scan_amended_witness :
    (compute_dd [100, 90]).max_dd
      = (List.zipWith (fun x q => 1 - x / q) [100, 90]
          (running_peaks 100 [100, 90])).foldl max 0 ∧
    compute_dd (List.replicate 2 100)
      = { peak := 100, max_dd := 0, dd_duration := 2, max_dd_duration := 2 } :=
  ⟨drawdown_scan_amended.1 100 [90] (by norm_num)
      (by
        intro x hx
        simp only [List.mem_singleton] at hx
        rw [hx]
        norm_num),
   drawdown_scan_amended.2 100 1 (by norm_num)⟩

end PyrustBt